import Mathlib

/-
Shallow embedding of the action-based input resolution engine of the
`lastor` game library (src/input/action.rs, src/input/input_manager.rs).

Modelling conventions:
* The HashSet of currently / just pressed keys is modelled as a
  characteristic function over the fixed, finite key set that
  `update_key_state` samples; the per-key loop body acts independently on
  each key, so it is rendered pointwise.  Mouse buttons likewise.
* The HashMap of bindings (and of buffered actions) is modelled as an
  association list; `insert` replaces any existing entry for the key, as
  HashMap::insert does.  HashSets of actions are duplicate-free lists.
* f32 scalars (buffer times, dt, mouse coordinates) are modelled as exact
  rationals; 2D float vectors used by get_movement_input as pairs of reals.
* The macroquad device backend (is_key_down, mouse_position, ...) is an
  explicit RawInput snapshot argument to update.
-/

namespace Lastor

/-- KeyCode: the fixed key set sampled by update_key_state (input_manager.rs,
the all_keys array), a subset of macroquad's KeyCode enum. -/
inductive KeyCode where
  | A | B | C | D | E | F | G | H | I | J | K | L | M
  | N | O | P | Q | R | S | T | U | V | W | X | Y | Z
  | Key0 | Key1 | Key2 | Key3 | Key4 | Key5 | Key6 | Key7 | Key8 | Key9
  | Space | Enter | Escape | Backspace | Tab
  | LeftShift | RightShift | LeftControl | RightControl | LeftAlt | RightAlt
  | Up | Down | Left | Right
  deriving DecidableEq

/-- MouseButton: the three standard buttons sampled by update_mouse_state. -/
inductive MouseButton where
  | Left | Right | Middle
  deriving DecidableEq

/-- Action (src/input/action.rs): fixed well-known actions plus an
open-ended Custom variant carrying a string payload. -/
inductive Action where
  | MoveUp | MoveDown | MoveLeft | MoveRight
  | Jump | Attack | Defend | Interact | Pause
  | Custom (name : String)
  deriving DecidableEq

/-- KeyBinding (src/input/action.rs): a primary key plus required modifiers. -/
structure KeyBinding where
  key : KeyCode
  modifiers : List KeyCode
  deriving DecidableEq

/-- MouseBinding (src/input/action.rs): a single mouse button. -/
structure MouseBinding where
  button : MouseButton
  deriving DecidableEq

/-- InputBinding (src/input/action.rs): a key binding or a mouse binding. -/
inductive InputBinding where
  | Key (kb : KeyBinding)
  | Mouse (mb : MouseBinding)
  deriving DecidableEq

/-- InputBinding::key convenience constructor. -/
def InputBinding.key (k : KeyCode) : InputBinding :=
  InputBinding.Key { key := k, modifiers := [] }

/-- InputBinding::key_with_modifier convenience constructor. -/
def InputBinding.key_with_modifier (k m : KeyCode) : InputBinding :=
  InputBinding.Key { key := k, modifiers := [m] }

/-- InputBinding::mouse convenience constructor. -/
def InputBinding.mouse (b : MouseButton) : InputBinding :=
  InputBinding.Mouse { button := b }

/-- One frame's raw device snapshot: what the macroquad backend answers when
update polls it (is_key_down, is_mouse_button_down, mouse_position,
mouse_wheel). -/
structure RawInput where
  key_down : KeyCode → Bool
  mouse_down : MouseButton → Bool
  mouse_pos : ℚ × ℚ
  wheel : ℚ × ℚ

/-- Set insert for duplicate-free lists, modelling HashSet::insert. -/
def sinsert {α : Type} [DecidableEq α] (x : α) (l : List α) : List α :=
  if x ∈ l then l else x :: l

/-- Association-list insert modelling HashMap::insert: replaces any existing
entry for the key. -/
def mapInsert {α β : Type} [DecidableEq α] (l : List (α × β)) (k : α) (v : β) :
    List (α × β) :=
  (k, v) :: l.filter (fun p => decide (p.1 ≠ k))

/-- Association-list removal modelling HashMap::remove (state part). -/
def mapRemove {α β : Type} [DecidableEq α] (l : List (α × β)) (k : α) :
    List (α × β) :=
  l.filter (fun p => decide (p.1 ≠ k))

/-- Association-list lookup modelling HashMap::get. -/
def mapFind {α β : Type} [DecidableEq α] (l : List (α × β)) (k : α) : Option β :=
  (l.find? (fun p => decide (p.1 = k))).map (fun p => p.2)

/-- InputManager state (src/input/input_manager.rs, struct InputManager). -/
structure InputManager where
  bindings : List (Action × List InputBinding)
  keys_pressed : KeyCode → Bool
  keys_just_pressed : KeyCode → Bool
  keys_just_released : KeyCode → Bool
  mouse_pressed : MouseButton → Bool
  mouse_just_pressed : MouseButton → Bool
  mouse_just_released : MouseButton → Bool
  mouse_position : ℚ × ℚ
  mouse_delta : ℚ × ℚ
  scroll_delta : ℚ × ℚ
  actions_active : List Action
  actions_just_activated : List Action
  actions_just_deactivated : List Action
  buffer_time : ℚ
  buffered_actions : List (Action × ℚ)

/-- InputManager::bind_action: replace all bindings for an action. -/
def InputManager.bind_action (s : InputManager) (a : Action)
    (bs : List InputBinding) : InputManager :=
  { s with bindings := mapInsert s.bindings a bs }

/-- InputManager::add_binding: append one binding to the action's list,
creating the entry if absent (HashMap entry().or_insert_with().push()). -/
def InputManager.add_binding (s : InputManager) (a : Action)
    (b : InputBinding) : InputManager :=
  if s.bindings.any (fun p => decide (p.1 = a)) then
    { s with bindings :=
        s.bindings.map (fun p => if p.1 = a then (p.1, p.2 ++ [b]) else p) }
  else
    { s with bindings := s.bindings ++ [(a, [b])] }

/-- InputManager::unbind_action: remove the action's entry entirely. -/
def InputManager.unbind_action (s : InputManager) (a : Action) : InputManager :=
  { s with bindings := mapRemove s.bindings a }

/-- InputManager::clear_bindings. -/
def InputManager.clear_bindings (s : InputManager) : InputManager :=
  { s with bindings := [] }

/-- InputManager::set_buffer_time. -/
def InputManager.set_buffer_time (s : InputManager) (t : ℚ) : InputManager :=
  { s with buffer_time := t }

/-- InputManager::get_bindings. -/
def InputManager.get_bindings (s : InputManager) (a : Action) :
    Option (List InputBinding) :=
  mapFind s.bindings a

/-- The pre-default-bindings literal state built at the top of
InputManager::new (all sets empty, buffer_time = 0.1). -/
def InputManager.base : InputManager :=
  { bindings := []
    keys_pressed := fun _ => false
    keys_just_pressed := fun _ => false
    keys_just_released := fun _ => false
    mouse_pressed := fun _ => false
    mouse_just_pressed := fun _ => false
    mouse_just_released := fun _ => false
    mouse_position := (0, 0)
    mouse_delta := (0, 0)
    scroll_delta := (0, 0)
    actions_active := []
    actions_just_activated := []
    actions_just_deactivated := []
    buffer_time := 0.1
    buffered_actions := [] }

/-- InputManager::setup_default_bindings. -/
def InputManager.setup_default_bindings (s : InputManager) : InputManager :=
  let s := s.bind_action Action.MoveUp
    [InputBinding.key KeyCode.W, InputBinding.key KeyCode.Up]
  let s := s.bind_action Action.MoveDown
    [InputBinding.key KeyCode.S, InputBinding.key KeyCode.Down]
  let s := s.bind_action Action.MoveLeft
    [InputBinding.key KeyCode.A, InputBinding.key KeyCode.Left]
  let s := s.bind_action Action.MoveRight
    [InputBinding.key KeyCode.D, InputBinding.key KeyCode.Right]
  let s := s.bind_action Action.Jump [InputBinding.key KeyCode.Space]
  let s := s.bind_action Action.Attack
    [InputBinding.mouse MouseButton.Left, InputBinding.key KeyCode.X]
  let s := s.bind_action Action.Defend
    [InputBinding.mouse MouseButton.Right, InputBinding.key KeyCode.Z]
  let s := s.bind_action Action.Interact [InputBinding.key KeyCode.E]
  s.bind_action Action.Pause [InputBinding.key KeyCode.Escape]

/-- InputManager::new: the literal state followed by setup_default_bindings. -/
def InputManager.new : InputManager :=
  InputManager.base.setup_default_bindings

/-- The Default impl for InputManager delegates to new. -/
def InputManager.default : InputManager :=
  InputManager.new

/-- InputManager::update_key_state: per-key edge detection over the sampled
key set.  Each loop iteration touches only its own key, so the HashSet
updates are rendered pointwise. -/
def InputManager.update_key_state (s : InputManager) (inp : RawInput) :
    InputManager :=
  { s with
    keys_just_pressed := fun k =>
      if inp.key_down k && !(s.keys_pressed k) then true
      else s.keys_just_pressed k
    keys_just_released := fun k =>
      if inp.key_down k && !(s.keys_pressed k) then s.keys_just_released k
      else if !(inp.key_down k) && s.keys_pressed k then true
      else s.keys_just_released k
    keys_pressed := fun k =>
      if inp.key_down k && !(s.keys_pressed k) then true
      else if !(inp.key_down k) && s.keys_pressed k then false
      else s.keys_pressed k }

/-- InputManager::update_mouse_state: pointer/scroll bookkeeping plus
per-button edge detection, pointwise like update_key_state. -/
def InputManager.update_mouse_state (s : InputManager) (inp : RawInput) :
    InputManager :=
  { s with
    mouse_delta := (inp.mouse_pos.1 - s.mouse_position.1,
                    inp.mouse_pos.2 - s.mouse_position.2)
    mouse_position := inp.mouse_pos
    scroll_delta := inp.wheel
    mouse_just_pressed := fun b =>
      if inp.mouse_down b && !(s.mouse_pressed b) then true
      else s.mouse_just_pressed b
    mouse_just_released := fun b =>
      if inp.mouse_down b && !(s.mouse_pressed b) then s.mouse_just_released b
      else if !(inp.mouse_down b) && s.mouse_pressed b then true
      else s.mouse_just_released b
    mouse_pressed := fun b =>
      if inp.mouse_down b && !(s.mouse_pressed b) then true
      else if !(inp.mouse_down b) && s.mouse_pressed b then false
      else s.mouse_pressed b }

/-- InputManager::is_binding_active: a key binding needs its primary key and
all its modifiers down; a mouse binding needs its button down. -/
def InputManager.is_binding_active (s : InputManager) (b : InputBinding) :
    Bool :=
  match b with
  | InputBinding.Key kb =>
    if !(s.keys_pressed kb.key) then false
    else kb.modifiers.all (fun m => s.keys_pressed m)
  | InputBinding.Mouse mb => s.mouse_pressed mb.button

/-- Accumulator of the update_action_state loop: the fresh active set being
built, plus the just-activated / just-deactivated / buffered collections the
loop inserts into. -/
structure ActionFoldAcc where
  new_active : List Action
  just_activated : List Action
  just_deactivated : List Action
  buffered : List (Action × ℚ)

/-- One iteration of the update_action_state loop body for a binding-table
entry (action, bindings). -/
def InputManager.action_step (s : InputManager) (acc : ActionFoldAcc)
    (p : Action × List InputBinding) : ActionFoldAcc :=
  let is_active := p.2.any (fun b => s.is_binding_active b)
  if is_active then
    let acc1 := { acc with new_active := sinsert p.1 acc.new_active }
    if p.1 ∈ s.actions_active then acc1
    else
      { acc1 with
        just_activated := sinsert p.1 acc1.just_activated
        buffered := mapInsert acc1.buffered p.1 s.buffer_time }
  else if p.1 ∈ s.actions_active then
    { acc with just_deactivated := sinsert p.1 acc.just_deactivated }
  else acc

/-- InputManager::update_action_state: fold the loop body over the binding
table, then replace actions_active with the freshly built set. -/
def InputManager.update_action_state (s : InputManager) : InputManager :=
  let r := s.bindings.foldl s.action_step
    { new_active := []
      just_activated := s.actions_just_activated
      just_deactivated := s.actions_just_deactivated
      buffered := s.buffered_actions }
  { s with
    actions_active := r.new_active
    actions_just_activated := r.just_activated
    actions_just_deactivated := r.just_deactivated
    buffered_actions := r.buffered }

/-- InputManager::update_input_buffer: decay every buffered entry by dt and
retain only those with positive remaining time. -/
def InputManager.update_input_buffer (s : InputManager) (dt : ℚ) :
    InputManager :=
  let decayed :=
    (s.buffered_actions.map (fun p => (p.1, p.2 - dt))).filter
      (fun p => decide (0 < p.2))
  { s with buffered_actions := decayed }

/-- The clear-previous-frame-state block at the top of
InputManager::update. -/
def InputManager.clear_frame_state (s : InputManager) : InputManager :=
  { s with
    keys_just_pressed := fun _ => false
    keys_just_released := fun _ => false
    mouse_just_pressed := fun _ => false
    mouse_just_released := fun _ => false
    actions_just_activated := []
    actions_just_deactivated := [] }

/-- InputManager::update: clear the frame-local just sets, then key state,
mouse state, action state, and buffer decay, in source order. -/
def InputManager.update (s : InputManager) (dt : ℚ) (inp : RawInput) :
    InputManager :=
  let s0 := s.clear_frame_state
  let s1 := s0.update_key_state inp
  let s2 := s1.update_mouse_state inp
  let s3 := s2.update_action_state
  s3.update_input_buffer dt

/-- InputManager::is_action_active. -/
def InputManager.is_action_active (s : InputManager) (a : Action) : Bool :=
  decide (a ∈ s.actions_active)

/-- InputManager::is_action_just_activated. -/
def InputManager.is_action_just_activated (s : InputManager) (a : Action) :
    Bool :=
  decide (a ∈ s.actions_just_activated)

/-- InputManager::is_action_just_deactivated. -/
def InputManager.is_action_just_deactivated (s : InputManager) (a : Action) :
    Bool :=
  decide (a ∈ s.actions_just_deactivated)

/-- InputManager::is_action_buffered: HashMap::contains_key on the buffer. -/
def InputManager.is_action_buffered (s : InputManager) (a : Action) : Bool :=
  (mapFind s.buffered_actions a).isSome

/-- InputManager::consume_buffered_action: remove the entry, report whether
it was present. -/
def InputManager.consume_buffered_action (s : InputManager) (a : Action) :
    Bool × InputManager :=
  ((mapFind s.buffered_actions a).isSome,
    { s with buffered_actions := mapRemove s.buffered_actions a })

/-- InputManager::is_key_down. -/
def InputManager.is_key_down (s : InputManager) (k : KeyCode) : Bool :=
  s.keys_pressed k

/-- InputManager::is_key_just_pressed. -/
def InputManager.is_key_just_pressed (s : InputManager) (k : KeyCode) : Bool :=
  s.keys_just_pressed k

/-- InputManager::is_key_just_released. -/
def InputManager.is_key_just_released (s : InputManager) (k : KeyCode) :
    Bool :=
  s.keys_just_released k

/-- InputManager::is_mouse_button_down. -/
def InputManager.is_mouse_button_down (s : InputManager) (b : MouseButton) :
    Bool :=
  s.mouse_pressed b

/-- The movement accumulation loop of InputManager::get_movement_input,
before the normalization step: unit increments per active cardinal action. -/
noncomputable def InputManager.movement_raw (s : InputManager) : ℝ × ℝ :=
  let m0 : ℝ × ℝ := (0, 0)
  let m1 := if s.is_action_active Action.MoveUp then (m0.1, m0.2 - 1) else m0
  let m2 := if s.is_action_active Action.MoveDown then (m1.1, m1.2 + 1) else m1
  let m3 := if s.is_action_active Action.MoveLeft then (m2.1 - 1, m2.2) else m2
  if s.is_action_active Action.MoveRight then (m3.1 + 1, m3.2) else m3

/-- Euclidean length of a 2D vector (glam Vec2::length). -/
noncomputable def vlen (v : ℝ × ℝ) : ℝ :=
  Real.sqrt (v.1 * v.1 + v.2 * v.2)

/-- glam Vec2::normalize: divide by the length. -/
noncomputable def vnormalize (v : ℝ × ℝ) : ℝ × ℝ :=
  (v.1 / vlen v, v.2 / vlen v)

/-- InputManager::get_movement_input: accumulate unit increments, normalize
when the result is non-zero, keep the exact zero vector otherwise. -/
noncomputable def InputManager.get_movement_input (s : InputManager) : ℝ × ℝ :=
  let movement := s.movement_raw
  if movement ≠ ((0 : ℝ), (0 : ℝ)) then vnormalize movement else movement

/-- One mutation of the public InputManager API, used to describe reachable
states. -/
inductive Op where
  | update (inp : RawInput) (dt : ℚ)
  | bind_action (a : Action) (bs : List InputBinding)
  | add_binding (a : Action) (b : InputBinding)
  | unbind_action (a : Action)
  | clear_bindings
  | set_buffer_time (t : ℚ)
  | consume_buffered_action (a : Action)

/-- Apply one API mutation. -/
def applyOp (s : InputManager) : Op → InputManager
  | Op.update inp dt => s.update dt inp
  | Op.bind_action a bs => s.bind_action a bs
  | Op.add_binding a b => s.add_binding a b
  | Op.unbind_action a => s.unbind_action a
  | Op.clear_bindings => s.clear_bindings
  | Op.set_buffer_time t => s.set_buffer_time t
  | Op.consume_buffered_action a => (s.consume_buffered_action a).2

/-- Run a sequence of API mutations from left to right. -/
def runOps (s : InputManager) : List Op → InputManager
  | [] => s
  | op :: rest => runOps (applyOp s op) rest

/-- Run a sequence of update calls, each with its own raw snapshot and dt. -/
def runUpdates (s : InputManager) : List (RawInput × ℚ) → InputManager
  | [] => s
  | u :: rest => runUpdates (s.update u.2 u.1) rest

/-- Total dt over a sequence of update calls. -/
def dtSum (us : List (RawInput × ℚ)) : ℚ :=
  (us.map (fun u => u.2)).sum

/-- A raw snapshot with no key or button down (the all-released snapshot). -/
def inpNone : RawInput :=
  { key_down := fun _ => false
    mouse_down := fun _ => false
    mouse_pos := (0, 0)
    wheel := (0, 0) }

/-- A raw snapshot with exactly the space key held down. -/
def inpSpace : RawInput :=
  { inpNone with key_down := fun k => decide (k = KeyCode.Space) }

/-- The end-to-end jump scenario: starting from the freshly constructed
manager (Jump inactive, buffer empty, buffer_time = 0.1), the space key is
held from frame N on and every update uses dt = 0.016.  jumpFrame k is the
manager state after the frame N + k update. -/
def jumpFrame : Nat → InputManager
  | 0 => InputManager.new.update 0.016 inpSpace
  | k + 1 => (jumpFrame k).update 0.016 inpSpace

/-- A binding is satisfied by a raw snapshot: primary key down and all
modifiers down for a key binding, button down for a mouse binding.  This is
what is_binding_active computes once the frame's key and mouse state have
been stored. -/
def binding_satisfied (inp : RawInput) (b : InputBinding) : Bool :=
  match b with
  | InputBinding.Key kb =>
    inp.key_down kb.key && kb.modifiers.all (fun m => inp.key_down m)
  | InputBinding.Mouse mb => inp.mouse_down mb.button

/-- A binding-table entry has some satisfied binding under the state's
stored key and mouse sets. -/
def entrySat (s : InputManager) (p : Action × List InputBinding) : Bool :=
  p.2.any (fun b => s.is_binding_active b)

theorem mem_sinsert {α : Type} [DecidableEq α] (x y : α) (l : List α) :
    x ∈ sinsert y l ↔ x = y ∨ x ∈ l := by
  unfold sinsert
  split_ifs with h
  · constructor
    · exact fun hx => Or.inr hx
    · rintro (rfl | hx)
      · exact h
      · exact hx
  · exact List.mem_cons

theorem mapFind_nil {α β : Type} [DecidableEq α] (k : α) :
    mapFind ([] : List (α × β)) k = none := by
  simp [mapFind]

theorem mapFind_cons {α β : Type} [DecidableEq α]
    (p : α × β) (l : List (α × β)) (k : α) :
    mapFind (p :: l) k = if p.1 = k then some p.2 else mapFind l k := by
  by_cases hp : p.1 = k
  · simp [mapFind, List.find?_cons, hp]
  · simp [mapFind, List.find?_cons, hp]

theorem mapFind_filterout_self {α β : Type} [DecidableEq α]
    (l : List (α × β)) (k : α) :
    mapFind (l.filter (fun p => decide (p.1 ≠ k))) k = none := by
  induction l with
  | nil => simp [mapFind]
  | cons p l ih =>
    by_cases hp : p.1 = k
    · rw [List.filter_cons_of_neg (by simpa using hp)]
      exact ih
    · rw [List.filter_cons_of_pos (by simpa using hp), mapFind_cons,
        if_neg hp]
      exact ih

theorem mapFind_filterout_ne {α β : Type} [DecidableEq α]
    (l : List (α × β)) (k k' : α) (h : k' ≠ k) :
    mapFind (l.filter (fun p => decide (p.1 ≠ k))) k' = mapFind l k' := by
  induction l with
  | nil => simp
  | cons p l ih =>
    by_cases hp : p.1 = k
    · have hpk : p.1 ≠ k' := by rw [hp]; exact fun hh => h hh.symm
      rw [List.filter_cons_of_neg (by simpa using hp), ih, mapFind_cons,
        if_neg hpk]
    · rw [List.filter_cons_of_pos (by simpa using hp), mapFind_cons,
        mapFind_cons, ih]

theorem mapFind_mapInsert {α β : Type} [DecidableEq α]
    (l : List (α × β)) (k k' : α) (v : β) :
    mapFind (mapInsert l k v) k' =
      if k' = k then some v else mapFind l k' := by
  unfold mapInsert
  rw [mapFind_cons]
  by_cases h : k' = k
  · simp [h]
  · rw [if_neg (fun hh : k = k' => h hh.symm), if_neg h,
      mapFind_filterout_ne l k k' h]

theorem mapFind_mapRemove_self {α β : Type} [DecidableEq α]
    (l : List (α × β)) (k : α) :
    mapFind (mapRemove l k) k = none :=
  mapFind_filterout_self l k

theorem mapFind_decay (l : List (Action × ℚ)) (dt : ℚ) (a : Action)
    (hw : (l.map Prod.fst).Nodup) :
    mapFind ((l.map (fun p => (p.1, p.2 - dt))).filter
        (fun p => decide (0 < p.2))) a =
      match mapFind l a with
      | none => none
      | some r => if 0 < r - dt then some (r - dt) else none := by
  induction l with
  | nil => simp [mapFind]
  | cons p l ih =>
    have hw' : (l.map Prod.fst).Nodup := (List.nodup_cons.mp hw).2
    have hnm : p.1 ∉ l.map Prod.fst := (List.nodup_cons.mp hw).1
    by_cases hp : p.1 = a
    · subst hp
      have hnone : mapFind l p.1 = none := by
        cases hfind : mapFind l p.1 with
        | none => rfl
        | some r =>
          exfalso
          apply hnm
          unfold mapFind at hfind
          cases hf : List.find? (fun q => decide (q.1 = p.1)) l with
          | none => rw [hf] at hfind; simp at hfind
          | some q =>
            have hq := List.find?_some hf
            have hqm := List.mem_of_find?_eq_some hf
            simp at hq
            exact hq ▸ List.mem_map_of_mem Prod.fst hqm
      have hnone2 :
          mapFind ((l.map (fun p => (p.1, p.2 - dt))).filter
            (fun p => decide (0 < p.2))) p.1 = none := by
        rw [ih hw', hnone]
      by_cases hr : 0 < p.2 - dt
      · rw [List.map_cons, List.filter_cons_of_pos (by simpa using hr),
          mapFind_cons, mapFind_cons]
        simp [hr]
      · rw [List.map_cons, List.filter_cons_of_neg (by simpa using hr),
          hnone2, mapFind_cons]
        simp [hr]
    · by_cases hr : 0 < p.2 - dt
      · rw [List.map_cons, List.filter_cons_of_pos (by simpa using hr),
          mapFind_cons, if_neg hp, ih hw', mapFind_cons, if_neg hp]
      · rw [List.map_cons, List.filter_cons_of_neg (by simpa using hr),
          ih hw', mapFind_cons, if_neg hp]

theorem update_keys_pressed (s : InputManager) (dt : ℚ) (inp : RawInput)
    (k : KeyCode) :
    (s.update dt inp).keys_pressed k = inp.key_down k := by
  unfold InputManager.update InputManager.clear_frame_state
    InputManager.update_key_state InputManager.update_mouse_state
    InputManager.update_action_state InputManager.update_input_buffer
  cases hi : inp.key_down k <;> cases hw : s.keys_pressed k <;> simp [hi, hw]

theorem update_mouse_pressed (s : InputManager) (dt : ℚ) (inp : RawInput)
    (b : MouseButton) :
    (s.update dt inp).mouse_pressed b = inp.mouse_down b := by
  unfold InputManager.update InputManager.clear_frame_state
    InputManager.update_key_state InputManager.update_mouse_state
    InputManager.update_action_state InputManager.update_input_buffer
  cases hi : inp.mouse_down b <;> cases hw : s.mouse_pressed b <;>
    simp [hi, hw]

theorem update_keys_just_pressed (s : InputManager) (dt : ℚ) (inp : RawInput)
    (k : KeyCode) :
    (s.update dt inp).keys_just_pressed k =
      (inp.key_down k && !(s.keys_pressed k)) := by
  unfold InputManager.update InputManager.clear_frame_state
    InputManager.update_key_state InputManager.update_mouse_state
    InputManager.update_action_state InputManager.update_input_buffer
  cases hi : inp.key_down k <;> cases hw : s.keys_pressed k <;> simp [hi, hw]

theorem update_keys_just_released (s : InputManager) (dt : ℚ) (inp : RawInput)
    (k : KeyCode) :
    (s.update dt inp).keys_just_released k =
      (!(inp.key_down k) && s.keys_pressed k) := by
  unfold InputManager.update InputManager.clear_frame_state
    InputManager.update_key_state InputManager.update_mouse_state
    InputManager.update_action_state InputManager.update_input_buffer
  cases hi : inp.key_down k <;> cases hw : s.keys_pressed k <;> simp [hi, hw]

theorem update_mouse_just_pressed (s : InputManager) (dt : ℚ) (inp : RawInput)
    (b : MouseButton) :
    (s.update dt inp).mouse_just_pressed b =
      (inp.mouse_down b && !(s.mouse_pressed b)) := by
  unfold InputManager.update InputManager.clear_frame_state
    InputManager.update_key_state InputManager.update_mouse_state
    InputManager.update_action_state InputManager.update_input_buffer
  cases hi : inp.mouse_down b <;> cases hw : s.mouse_pressed b <;>
    simp [hi, hw]

theorem update_mouse_just_released (s : InputManager) (dt : ℚ)
    (inp : RawInput) (b : MouseButton) :
    (s.update dt inp).mouse_just_released b =
      (!(inp.mouse_down b) && s.mouse_pressed b) := by
  unfold InputManager.update InputManager.clear_frame_state
    InputManager.update_key_state InputManager.update_mouse_state
    InputManager.update_action_state InputManager.update_input_buffer
  cases hi : inp.mouse_down b <;> cases hw : s.mouse_pressed b <;>
    simp [hi, hw]

theorem update_bindings (s : InputManager) (dt : ℚ) (inp : RawInput) :
    (s.update dt inp).bindings = s.bindings := by
  unfold InputManager.update InputManager.clear_frame_state
    InputManager.update_key_state InputManager.update_mouse_state
    InputManager.update_action_state InputManager.update_input_buffer
  rfl

theorem update_buffer_time (s : InputManager) (dt : ℚ) (inp : RawInput) :
    (s.update dt inp).buffer_time = s.buffer_time := by
  unfold InputManager.update InputManager.clear_frame_state
    InputManager.update_key_state InputManager.update_mouse_state
    InputManager.update_action_state InputManager.update_input_buffer
  rfl

theorem action_step_new_active (s : InputManager) (acc : ActionFoldAcc)
    (p : Action × List InputBinding) :
    (s.action_step acc p).new_active =
      if entrySat s p = true then sinsert p.1 acc.new_active
      else acc.new_active := by
  unfold InputManager.action_step entrySat
  cases hA : p.2.any (fun b => s.is_binding_active b) <;>
    by_cases hO : p.1 ∈ s.actions_active <;> simp [hA, hO]

theorem action_step_just_activated (s : InputManager) (acc : ActionFoldAcc)
    (p : Action × List InputBinding) :
    (s.action_step acc p).just_activated =
      if entrySat s p = true ∧ p.1 ∉ s.actions_active then
        sinsert p.1 acc.just_activated
      else acc.just_activated := by
  unfold InputManager.action_step entrySat
  cases hA : p.2.any (fun b => s.is_binding_active b) <;>
    by_cases hO : p.1 ∈ s.actions_active <;> simp [hA, hO]

theorem action_step_just_deactivated (s : InputManager) (acc : ActionFoldAcc)
    (p : Action × List InputBinding) :
    (s.action_step acc p).just_deactivated =
      if entrySat s p = false ∧ p.1 ∈ s.actions_active then
        sinsert p.1 acc.just_deactivated
      else acc.just_deactivated := by
  unfold InputManager.action_step entrySat
  cases hA : p.2.any (fun b => s.is_binding_active b) <;>
    by_cases hO : p.1 ∈ s.actions_active <;> simp [hA, hO]

theorem action_step_buffered (s : InputManager) (acc : ActionFoldAcc)
    (p : Action × List InputBinding) :
    (s.action_step acc p).buffered =
      if entrySat s p = true ∧ p.1 ∉ s.actions_active then
        mapInsert acc.buffered p.1 s.buffer_time
      else acc.buffered := by
  unfold InputManager.action_step entrySat
  cases hA : p.2.any (fun b => s.is_binding_active b) <;>
    by_cases hO : p.1 ∈ s.actions_active <;> simp [hA, hO]

theorem foldl_new_active_mem (s : InputManager)
    (l : List (Action × List InputBinding)) (acc : ActionFoldAcc)
    (a : Action) :
    a ∈ (l.foldl s.action_step acc).new_active ↔
      a ∈ acc.new_active ∨ ∃ p ∈ l, p.1 = a ∧ entrySat s p = true := by
  induction l generalizing acc with
  | nil => simp
  | cons p l ih =>
    rw [List.foldl_cons, ih, action_step_new_active]
    by_cases hc : entrySat s p = true
    · rw [if_pos hc]
      simp only [mem_sinsert, List.mem_cons, hc]
      constructor
      · rintro ((rfl | hacc) | hl)
        · exact Or.inr ⟨p, Or.inl rfl, rfl, hc⟩
        · exact Or.inl hacc
        · rcases hl with ⟨q, hq, hqa, hqs⟩
          exact Or.inr ⟨q, Or.inr hq, hqa, hqs⟩
      · rintro (hacc | ⟨q, (rfl | hq), hqa, hqs⟩)
        · exact Or.inl (Or.inr hacc)
        · exact Or.inl (Or.inl hqa.symm)
        · exact Or.inr ⟨q, hq, hqa, hqs⟩
    · rw [if_neg hc]
      simp only [List.mem_cons]
      constructor
      · rintro (hacc | ⟨q, hq, hqa, hqs⟩)
        · exact Or.inl hacc
        · exact Or.inr ⟨q, Or.inr hq, hqa, hqs⟩
      · rintro (hacc | ⟨q, (rfl | hq), hqa, hqs⟩)
        · exact Or.inl hacc
        · exact absurd hqs hc
        · exact Or.inr ⟨q, hq, hqa, hqs⟩

theorem foldl_just_activated_mem (s : InputManager)
    (l : List (Action × List InputBinding)) (acc : ActionFoldAcc)
    (a : Action) :
    a ∈ (l.foldl s.action_step acc).just_activated ↔
      a ∈ acc.just_activated ∨
        (a ∉ s.actions_active ∧ ∃ p ∈ l, p.1 = a ∧ entrySat s p = true) := by
  induction l generalizing acc with
  | nil => simp
  | cons p l ih =>
    rw [List.foldl_cons, ih, action_step_just_activated]
    by_cases hc : entrySat s p = true ∧ p.1 ∉ s.actions_active
    · rw [if_pos hc]
      simp only [mem_sinsert, List.mem_cons]
      constructor
      · rintro ((rfl | hacc) | ⟨hna, q, hq, hqa, hqs⟩)
        · exact Or.inr ⟨hc.2, p, Or.inl rfl, rfl, hc.1⟩
        · exact Or.inl hacc
        · exact Or.inr ⟨hna, q, Or.inr hq, hqa, hqs⟩
      · rintro (hacc | ⟨hna, q, (rfl | hq), hqa, hqs⟩)
        · exact Or.inl (Or.inr hacc)
        · exact Or.inl (Or.inl hqa.symm)
        · exact Or.inr ⟨hna, q, hq, hqa, hqs⟩
    · rw [if_neg hc]
      simp only [List.mem_cons]
      constructor
      · rintro (hacc | ⟨hna, q, hq, hqa, hqs⟩)
        · exact Or.inl hacc
        · exact Or.inr ⟨hna, q, Or.inr hq, hqa, hqs⟩
      · rintro (hacc | ⟨hna, q, (rfl | hq), hqa, hqs⟩)
        · exact Or.inl hacc
        · exact absurd ⟨hqs, hqa ▸ hna⟩ hc
        · exact Or.inr ⟨hna, q, hq, hqa, hqs⟩

theorem foldl_just_deactivated_mem (s : InputManager)
    (l : List (Action × List InputBinding)) (acc : ActionFoldAcc)
    (a : Action) :
    a ∈ (l.foldl s.action_step acc).just_deactivated ↔
      a ∈ acc.just_deactivated ∨
        (a ∈ s.actions_active ∧ ∃ p ∈ l, p.1 = a ∧ entrySat s p = false) := by
  induction l generalizing acc with
  | nil => simp
  | cons p l ih =>
    rw [List.foldl_cons, ih, action_step_just_deactivated]
    by_cases hc : entrySat s p = false ∧ p.1 ∈ s.actions_active
    · rw [if_pos hc]
      simp only [mem_sinsert, List.mem_cons]
      constructor
      · rintro ((rfl | hacc) | ⟨hna, q, hq, hqa, hqs⟩)
        · exact Or.inr ⟨hc.2, p, Or.inl rfl, rfl, hc.1⟩
        · exact Or.inl hacc
        · exact Or.inr ⟨hna, q, Or.inr hq, hqa, hqs⟩
      · rintro (hacc | ⟨hna, q, (rfl | hq), hqa, hqs⟩)
        · exact Or.inl (Or.inr hacc)
        · exact Or.inl (Or.inl hqa.symm)
        · exact Or.inr ⟨hna, q, hq, hqa, hqs⟩
    · rw [if_neg hc]
      simp only [List.mem_cons]
      constructor
      · rintro (hacc | ⟨hna, q, hq, hqa, hqs⟩)
        · exact Or.inl hacc
        · exact Or.inr ⟨hna, q, Or.inr hq, hqa, hqs⟩
      · rintro (hacc | ⟨hna, q, (rfl | hq), hqa, hqs⟩)
        · exact Or.inl hacc
        · exact absurd ⟨hqs, hqa ▸ hna⟩ hc
        · exact Or.inr ⟨hna, q, hq, hqa, hqs⟩

theorem foldl_buffered_find (s : InputManager)
    (l : List (Action × List InputBinding)) (acc : ActionFoldAcc)
    (a : Action) :
    mapFind (l.foldl s.action_step acc).buffered a =
      if a ∉ s.actions_active ∧ ∃ p ∈ l, p.1 = a ∧ entrySat s p = true then
        some s.buffer_time
      else mapFind acc.buffered a := by
  induction l generalizing acc with
  | nil => simp
  | cons p l ih =>
    rw [List.foldl_cons, ih, action_step_buffered]
    by_cases hCl : a ∉ s.actions_active ∧
        ∃ q ∈ l, q.1 = a ∧ entrySat s q = true
    · rw [if_pos hCl]
      rcases hCl with ⟨hna, q, hq, hqa, hqs⟩
      rw [if_pos ⟨hna, q, List.mem_cons_of_mem p hq, hqa, hqs⟩]
    · rw [if_neg hCl]
      by_cases hc : entrySat s p = true ∧ p.1 ∉ s.actions_active
      · rw [if_pos hc]
        rw [mapFind_mapInsert]
        by_cases hpa : a = p.1
        · rw [if_pos hpa]
          rw [if_pos ⟨hpa ▸ hc.2, p, List.mem_cons_self p l, hpa.symm, hc.1⟩]
        · rw [if_neg hpa]
          rw [if_neg]
          rintro ⟨hna, q, hq, hqa, hqs⟩
          rcases List.mem_cons.mp hq with rfl | hq'
          · exact hpa hqa.symm
          · exact hCl ⟨hna, q, hq', hqa, hqs⟩
      · rw [if_neg hc]
        rw [if_neg]
        rintro ⟨hna, q, hq, hqa, hqs⟩
        rcases List.mem_cons.mp hq with rfl | hq'
        · exact hc ⟨hqs, hqa ▸ hna⟩
        · exact hCl ⟨hna, q, hq', hqa, hqs⟩

theorem foldl_buffered_nodup (s : InputManager)
    (l : List (Action × List InputBinding)) (acc : ActionFoldAcc)
    (hw : (acc.buffered.map Prod.fst).Nodup) :
    ((l.foldl s.action_step acc).buffered.map Prod.fst).Nodup := by
  induction l generalizing acc with
  | nil => exact hw
  | cons p l ih =>
    rw [List.foldl_cons]
    apply ih
    rw [action_step_buffered]
    by_cases hc : entrySat s p = true ∧ p.1 ∉ s.actions_active
    · rw [if_pos hc]
      unfold mapInsert
      rw [List.map_cons, List.nodup_cons]
      constructor
      · intro hmem
        rcases List.mem_map.mp hmem with ⟨q, hq, hqa⟩
        have := List.of_mem_filter hq
        simp at this
        exact this hqa
      · exact List.Nodup.sublist
          (List.Sublist.map Prod.fst (List.filter_sublist _)) hw
    · rw [if_neg hc]
      exact hw

theorem listAllCongr {α : Type} (l : List α) (f g : α → Bool)
    (h : ∀ x ∈ l, f x = g x) : l.all f = l.all g := by
  induction l with
  | nil => rfl
  | cons x l ih =>
    rw [List.all_cons, List.all_cons, h x (List.mem_cons_self x l),
      ih (fun y hy => h y (List.mem_cons_of_mem x hy))]

theorem listAnyCongr {α : Type} (l : List α) (f g : α → Bool)
    (h : ∀ x ∈ l, f x = g x) : l.any f = l.any g := by
  induction l with
  | nil => rfl
  | cons x l ih =>
    rw [List.any_cons, List.any_cons, h x (List.mem_cons_self x l),
      ih (fun y hy => h y (List.mem_cons_of_mem x hy))]

theorem is_binding_active_eq_satisfied (s : InputManager) (inp : RawInput)
    (hk : ∀ k, s.keys_pressed k = inp.key_down k)
    (hm : ∀ b, s.mouse_pressed b = inp.mouse_down b)
    (b : InputBinding) :
    s.is_binding_active b = binding_satisfied inp b := by
  cases b with
  | Key kb =>
    show (if !(s.keys_pressed kb.key) then false
          else kb.modifiers.all (fun m => s.keys_pressed m)) =
        (inp.key_down kb.key && kb.modifiers.all (fun m => inp.key_down m))
    rw [hk]
    cases inp.key_down kb.key
    · simp
    · simp only [Bool.not_true, Bool.false_eq_true, if_false, Bool.true_and]
      exact listAllCongr _ _ _ (fun m _ => hk m)
  | Mouse mb =>
    show s.mouse_pressed mb.button = inp.mouse_down mb.button
    exact hm mb.button

/-- The state handed to update_action_state inside update: cleared just
sets, then key and mouse state refreshed from the snapshot. -/
def midState (s : InputManager) (inp : RawInput) : InputManager :=
  ((s.clear_frame_state).update_key_state inp).update_mouse_state inp

theorem update_eq_pipeline (s : InputManager) (dt : ℚ) (inp : RawInput) :
    s.update dt inp =
      ((midState s inp).update_action_state).update_input_buffer dt := rfl

theorem midState_bindings (s : InputManager) (inp : RawInput) :
    (midState s inp).bindings = s.bindings := rfl

theorem midState_actions_active (s : InputManager) (inp : RawInput) :
    (midState s inp).actions_active = s.actions_active := rfl

theorem midState_buffer_time (s : InputManager) (inp : RawInput) :
    (midState s inp).buffer_time = s.buffer_time := rfl

theorem midState_buffered_actions (s : InputManager) (inp : RawInput) :
    (midState s inp).buffered_actions = s.buffered_actions := rfl

theorem midState_just_activated (s : InputManager) (inp : RawInput) :
    (midState s inp).actions_just_activated = [] := rfl

theorem midState_just_deactivated (s : InputManager) (inp : RawInput) :
    (midState s inp).actions_just_deactivated = [] := rfl

theorem midState_keys_pressed (s : InputManager) (inp : RawInput)
    (k : KeyCode) :
    (midState s inp).keys_pressed k = inp.key_down k := by
  unfold midState InputManager.clear_frame_state InputManager.update_key_state
    InputManager.update_mouse_state
  cases hi : inp.key_down k <;> cases hw : s.keys_pressed k <;> simp [hi, hw]

theorem midState_mouse_pressed (s : InputManager) (inp : RawInput)
    (b : MouseButton) :
    (midState s inp).mouse_pressed b = inp.mouse_down b := by
  unfold midState InputManager.clear_frame_state InputManager.update_key_state
    InputManager.update_mouse_state
  cases hi : inp.mouse_down b <;> cases hw : s.mouse_pressed b <;>
    simp [hi, hw]

theorem midState_entrySat (s : InputManager) (inp : RawInput)
    (p : Action × List InputBinding) :
    entrySat (midState s inp) p = p.2.any (binding_satisfied inp) := by
  unfold entrySat
  exact listAnyCongr _ _ _ (fun b _ =>
    is_binding_active_eq_satisfied _ inp (midState_keys_pressed s inp)
      (midState_mouse_pressed s inp) b)

theorem update_action_state_active_mem (s : InputManager) (a : Action) :
    a ∈ s.update_action_state.actions_active ↔
      ∃ p ∈ s.bindings, p.1 = a ∧ entrySat s p = true := by
  unfold InputManager.update_action_state
  rw [foldl_new_active_mem]
  simp

theorem update_action_state_ja_mem (s : InputManager) (a : Action) :
    a ∈ s.update_action_state.actions_just_activated ↔
      a ∈ s.actions_just_activated ∨
        (a ∉ s.actions_active ∧
          ∃ p ∈ s.bindings, p.1 = a ∧ entrySat s p = true) := by
  unfold InputManager.update_action_state
  rw [foldl_just_activated_mem]

theorem update_action_state_jd_mem (s : InputManager) (a : Action) :
    a ∈ s.update_action_state.actions_just_deactivated ↔
      a ∈ s.actions_just_deactivated ∨
        (a ∈ s.actions_active ∧
          ∃ p ∈ s.bindings, p.1 = a ∧ entrySat s p = false) := by
  unfold InputManager.update_action_state
  rw [foldl_just_deactivated_mem]

theorem update_action_state_buffered_find (s : InputManager) (a : Action) :
    mapFind s.update_action_state.buffered_actions a =
      if a ∉ s.actions_active ∧ ∃ p ∈ s.bindings, p.1 = a ∧ entrySat s p = true
      then some s.buffer_time
      else mapFind s.buffered_actions a := by
  unfold InputManager.update_action_state
  rw [foldl_buffered_find]

theorem update_action_state_buffered_nodup (s : InputManager)
    (hw : (s.buffered_actions.map Prod.fst).Nodup) :
    (s.update_action_state.buffered_actions.map Prod.fst).Nodup := by
  unfold InputManager.update_action_state
  exact foldl_buffered_nodup s s.bindings _ hw

/-- The satisfied-entry condition that makes an action freshly active under
a raw snapshot. -/
def activeUnder (s : InputManager) (inp : RawInput) (a : Action) : Prop :=
  ∃ p ∈ s.bindings, p.1 = a ∧ p.2.any (binding_satisfied inp) = true

instance (s : InputManager) (inp : RawInput) (a : Action) :
    Decidable (activeUnder s inp a) := by
  unfold activeUnder
  infer_instance

theorem update_active_mem (s : InputManager) (dt : ℚ) (inp : RawInput)
    (a : Action) :
    a ∈ (s.update dt inp).actions_active ↔ activeUnder s inp a := by
  rw [update_eq_pipeline]
  show a ∈ (midState s inp).update_action_state.actions_active ↔ _
  rw [update_action_state_active_mem]
  unfold activeUnder
  rw [midState_bindings]
  constructor
  · rintro ⟨p, hp, hpa, hps⟩
    rw [midState_entrySat] at hps
    exact ⟨p, hp, hpa, hps⟩
  · rintro ⟨p, hp, hpa, hps⟩
    refine ⟨p, hp, hpa, ?_⟩
    rw [midState_entrySat]
    exact hps

theorem update_ja_mem (s : InputManager) (dt : ℚ) (inp : RawInput)
    (a : Action) :
    a ∈ (s.update dt inp).actions_just_activated ↔
      a ∉ s.actions_active ∧ activeUnder s inp a := by
  rw [update_eq_pipeline]
  show a ∈ (midState s inp).update_action_state.actions_just_activated ↔ _
  rw [update_action_state_ja_mem, midState_just_activated,
    midState_actions_active, midState_bindings]
  simp only [List.not_mem_nil, false_or]
  unfold activeUnder
  constructor
  · rintro ⟨hna, p, hp, hpa, hps⟩
    rw [midState_entrySat] at hps
    exact ⟨hna, p, hp, hpa, hps⟩
  · rintro ⟨hna, p, hp, hpa, hps⟩
    refine ⟨hna, p, hp, hpa, ?_⟩
    rw [midState_entrySat]
    exact hps

theorem update_jd_mem (s : InputManager) (dt : ℚ) (inp : RawInput)
    (a : Action) :
    a ∈ (s.update dt inp).actions_just_deactivated ↔
      a ∈ s.actions_active ∧
        ∃ p ∈ s.bindings, p.1 = a ∧ p.2.any (binding_satisfied inp) = false := by
  rw [update_eq_pipeline]
  show a ∈ (midState s inp).update_action_state.actions_just_deactivated ↔ _
  rw [update_action_state_jd_mem, midState_just_deactivated,
    midState_actions_active, midState_bindings]
  simp only [List.not_mem_nil, false_or]
  constructor
  · rintro ⟨hin, p, hp, hpa, hps⟩
    rw [midState_entrySat] at hps
    exact ⟨hin, p, hp, hpa, hps⟩
  · rintro ⟨hin, p, hp, hpa, hps⟩
    refine ⟨hin, p, hp, hpa, ?_⟩
    rw [midState_entrySat]
    exact hps

theorem update_buffered_find (s : InputManager) (dt : ℚ) (inp : RawInput)
    (a : Action) (hw : (s.buffered_actions.map Prod.fst).Nodup) :
    mapFind (s.update dt inp).buffered_actions a =
      match (if a ∉ s.actions_active ∧ activeUnder s inp a
             then some s.buffer_time
             else mapFind s.buffered_actions a) with
      | none => none
      | some r => if 0 < r - dt then some (r - dt) else none := by
  rw [update_eq_pipeline]
  unfold InputManager.update_input_buffer
  show mapFind (((midState s inp).update_action_state.buffered_actions.map
      (fun p => (p.1, p.2 - dt))).filter (fun p => decide (0 < p.2))) a = _
  rw [mapFind_decay _ dt a (update_action_state_buffered_nodup _
    (by rw [midState_buffered_actions]; exact hw))]
  rw [update_action_state_buffered_find, midState_actions_active,
    midState_bindings, midState_buffer_time, midState_buffered_actions]
  by_cases hc : a ∉ s.actions_active ∧ activeUnder s inp a
  · rw [if_pos hc]
    rw [if_pos]
    rcases hc with ⟨hna, p, hp, hpa, hps⟩
    refine ⟨hna, p, hp, hpa, ?_⟩
    rw [midState_entrySat]
    exact hps
  · rw [if_neg hc]
    rw [if_neg]
    rintro ⟨hna, p, hp, hpa, hps⟩
    rw [midState_entrySat] at hps
    exact hc ⟨hna, p, hp, hpa, hps⟩

theorem update_buffered_nodup (s : InputManager) (dt : ℚ) (inp : RawInput)
    (hw : (s.buffered_actions.map Prod.fst).Nodup) :
    ((s.update dt inp).buffered_actions.map Prod.fst).Nodup := by
  rw [update_eq_pipeline]
  have h1 := update_action_state_buffered_nodup (midState s inp)
    (by rw [midState_buffered_actions]; exact hw)
  have h2 : (((midState s inp).update_action_state.buffered_actions.map
      (fun p => (p.1, p.2 - dt))).map Prod.fst).Nodup := by
    have he : ((midState s inp).update_action_state.buffered_actions.map
        (fun p => (p.1, p.2 - dt))).map Prod.fst =
        (midState s inp).update_action_state.buffered_actions.map Prod.fst := by
      rw [List.map_map]
      rfl
    rw [he]
    exact h1
  show ((((midState s inp).update_action_state.buffered_actions.map
    (fun p => (p.1, p.2 - dt))).filter
      (fun p => decide (0 < p.2))).map Prod.fst).Nodup
  exact List.Nodup.sublist
    (List.Sublist.map Prod.fst (List.filter_sublist _)) h2

/-- C10: a freshly constructed InputManager (new, and Default which
delegates to new) is not empty: the binding table already holds entries for
all nine enumerated actions, each with exactly the listed bindings in order,
and buffer_time is 0.1 seconds. -/
theorem c10_default_construction :
    InputManager.new.get_bindings Action.MoveUp =
      some [InputBinding.key KeyCode.W, InputBinding.key KeyCode.Up] ∧
    InputManager.new.get_bindings Action.MoveDown =
      some [InputBinding.key KeyCode.S, InputBinding.key KeyCode.Down] ∧
    InputManager.new.get_bindings Action.MoveLeft =
      some [InputBinding.key KeyCode.A, InputBinding.key KeyCode.Left] ∧
    InputManager.new.get_bindings Action.MoveRight =
      some [InputBinding.key KeyCode.D, InputBinding.key KeyCode.Right] ∧
    InputManager.new.get_bindings Action.Jump =
      some [InputBinding.key KeyCode.Space] ∧
    InputManager.new.get_bindings Action.Attack =
      some [InputBinding.mouse MouseButton.Left, InputBinding.key KeyCode.X] ∧
    InputManager.new.get_bindings Action.Defend =
      some [InputBinding.mouse MouseButton.Right, InputBinding.key KeyCode.Z] ∧
    InputManager.new.get_bindings Action.Interact =
      some [InputBinding.key KeyCode.E] ∧
    InputManager.new.get_bindings Action.Pause =
      some [InputBinding.key KeyCode.Escape] ∧
    InputManager.new.buffer_time = 0.1 ∧
    InputManager.default = InputManager.new := by
  refine ⟨?_, ?_, ?_, ?_, ?_, ?_, ?_, ?_, ?_, rfl, rfl⟩ <;> decide

/-- C9: set_buffer_time changes only the stored buffer_time configuration
value: every other field, including every already-buffered entry and its
remaining time, is left unchanged, and the new value is what a later update
uses when a just-activated action creates a buffer entry. -/
theorem c9_set_buffer_time_effect (s : InputManager) (t : ℚ) :
    (s.set_buffer_time t).buffer_time = t ∧
    (s.set_buffer_time t).buffered_actions = s.buffered_actions ∧
    (s.set_buffer_time t).bindings = s.bindings ∧
    (s.set_buffer_time t).keys_pressed = s.keys_pressed ∧
    (s.set_buffer_time t).keys_just_pressed = s.keys_just_pressed ∧
    (s.set_buffer_time t).keys_just_released = s.keys_just_released ∧
    (s.set_buffer_time t).mouse_pressed = s.mouse_pressed ∧
    (s.set_buffer_time t).mouse_just_pressed = s.mouse_just_pressed ∧
    (s.set_buffer_time t).mouse_just_released = s.mouse_just_released ∧
    (s.set_buffer_time t).mouse_position = s.mouse_position ∧
    (s.set_buffer_time t).mouse_delta = s.mouse_delta ∧
    (s.set_buffer_time t).scroll_delta = s.scroll_delta ∧
    (s.set_buffer_time t).actions_active = s.actions_active ∧
    (s.set_buffer_time t).actions_just_activated = s.actions_just_activated ∧
    (s.set_buffer_time t).actions_just_deactivated =
      s.actions_just_deactivated ∧
    (∀ inp dt a, (s.buffered_actions.map Prod.fst).Nodup →
      a ∈ ((s.set_buffer_time t).update dt inp).actions_just_activated →
      mapFind ((s.set_buffer_time t).update dt inp).buffered_actions a =
        if 0 < t - dt then some (t - dt) else none) := by
  refine ⟨rfl, rfl, rfl, rfl, rfl, rfl, rfl, rfl, rfl, rfl, rfl, rfl, rfl,
    rfl, rfl, ?_⟩
  intro inp dt a hw hja
  rw [update_ja_mem] at hja
  rw [update_buffered_find (s.set_buffer_time t) dt inp a hw, if_pos hja]
  rfl

/-- C5: after every update call, the just-activated and just-deactivated
sets are disjoint at both levels: no key, no mouse button and no action is
reported as both a press and a release transition in the same frame. -/
theorem c5_no_double_transition (s : InputManager) (dt : ℚ) (inp : RawInput) :
    (∀ k, ¬((s.update dt inp).keys_just_pressed k = true ∧
            (s.update dt inp).keys_just_released k = true)) ∧
    (∀ b, ¬((s.update dt inp).mouse_just_pressed b = true ∧
            (s.update dt inp).mouse_just_released b = true)) ∧
    (∀ a, ¬(a ∈ (s.update dt inp).actions_just_activated ∧
            a ∈ (s.update dt inp).actions_just_deactivated)) := by
  refine ⟨fun k h => ?_, fun b h => ?_, fun a h => ?_⟩
  · obtain ⟨hp, hr⟩ := h
    rw [update_keys_just_pressed] at hp
    rw [update_keys_just_released] at hr
    cases hik : inp.key_down k <;> rw [hik] at hp hr <;> simp_all
  · obtain ⟨hp, hr⟩ := h
    rw [update_mouse_just_pressed] at hp
    rw [update_mouse_just_released] at hr
    cases hib : inp.mouse_down b <;> rw [hib] at hp hr <;> simp_all
  · obtain ⟨ha, hd⟩ := h
    rw [update_ja_mem] at ha
    rw [update_jd_mem] at hd
    exact ha.1 hd.1

/-- C6: when an update makes an action just-activated again while it is
already in the temporal buffer with some remaining time, the entry is reset
to the current buffer_time (then decayed by this frame's dt like every
entry), not added to the previously remaining time. -/
theorem c6_buffer_reset (s : InputManager) (dt : ℚ) (inp : RawInput)
    (a : Action) (r : ℚ)
    (hw : (s.buffered_actions.map Prod.fst).Nodup)
    (_hprev : mapFind s.buffered_actions a = some r)
    (hact : a ∈ (s.update dt inp).actions_just_activated) :
    mapFind (s.update dt inp).buffered_actions a =
      if 0 < s.buffer_time - dt then some (s.buffer_time - dt) else none := by
  rw [update_ja_mem] at hact
  rw [update_buffered_find _ dt inp a hw, if_pos hact]

theorem nodup_key_inj {α β : Type} [DecidableEq α] (l : List (α × β))
    (hw : (l.map Prod.fst).Nodup) (p q : α × β) (hp : p ∈ l) (hq : q ∈ l)
    (h : p.1 = q.1) : p = q := by
  induction l with
  | nil => cases hp
  | cons x l ih =>
    rw [List.map_cons, List.nodup_cons] at hw
    rcases List.mem_cons.mp hp with rfl | hp'
    · rcases List.mem_cons.mp hq with rfl | hq'
      · rfl
      · exact absurd (h ▸ List.mem_map_of_mem Prod.fst hq') hw.1
    · rcases List.mem_cons.mp hq with rfl | hq'
      · exact absurd (h ▸ List.mem_map_of_mem Prod.fst hp') hw.1
      · exact ih hw.2 hp' hq'

theorem mapFind_eq_of_mem_nodup {α β : Type} [DecidableEq α]
    (l : List (α × β)) (p : α × β)
    (hw : (l.map Prod.fst).Nodup) (hp : p ∈ l) :
    mapFind l p.1 = some p.2 := by
  induction l with
  | nil => cases hp
  | cons x l ih =>
    rw [List.map_cons, List.nodup_cons] at hw
    rcases List.mem_cons.mp hp with rfl | hp'
    · rw [mapFind_cons, if_pos rfl]
    · rw [mapFind_cons]
      by_cases hx : x.1 = p.1
      · exact absurd (hx ▸ List.mem_map_of_mem Prod.fst hp') hw.1
      · rw [if_neg hx]
        exact ih hw.2 hp'

theorem mapFind_some_mem {α β : Type} [DecidableEq α]
    (l : List (α × β)) (a : α) (v : β)
    (h : mapFind l a = some v) : (a, v) ∈ l := by
  unfold mapFind at h
  cases hf : l.find? (fun p => decide (p.1 = a)) with
  | none => rw [hf] at h; cases h
  | some q =>
    rw [hf] at h
    have hqm := List.mem_of_find?_eq_some hf
    have hqp := List.find?_some hf
    have h2 : q.2 = v := by injection h
    simp only [decide_eq_true_eq] at hqp
    have hq : q = (a, v) := by
      cases q
      simp only [Prod.mk.injEq]
      exact ⟨hqp, h2⟩
    rw [← hq]
    exact hqm

/-- C1 counterexample: bind Jump to Space (the default), press Space so that
Jump becomes active, remove the binding-table entry while the key is held,
then update again: the action silently drops out of the active set and
is_action_just_deactivated stays false, contradicting the claim that an
action whose entry was removed while active is reported just-deactivated. -/
theorem c1_counterexample :
    (InputManager.new.update 0.016 inpSpace).is_action_active
      Action.Jump = true ∧
    (((InputManager.new.update 0.016 inpSpace).unbind_action
        Action.Jump).update 0.016 inpSpace).is_action_active
      Action.Jump = false ∧
    (((InputManager.new.update 0.016 inpSpace).unbind_action
        Action.Jump).update 0.016 inpSpace).is_action_just_deactivated
      Action.Jump = false := by
  refine ⟨?_, ?_, ?_⟩ <;> decide

/-- C1 (amended): after an update, the just-activated set is exactly this
frame's active set minus last frame's, and the just-deactivated set is
exactly last frame's active set minus this frame's restricted to actions
that still have a binding-table entry; an action whose entry was removed
while it was active becomes inactive without being reported
just-deactivated. -/
theorem c1_edge_detection (s : InputManager) (dt : ℚ) (inp : RawInput)
    (a : Action) (hw : (s.bindings.map Prod.fst).Nodup) :
    ((s.update dt inp).is_action_just_activated a = true ↔
      ((s.update dt inp).is_action_active a = true ∧
        ¬ s.is_action_active a = true)) ∧
    ((s.update dt inp).is_action_just_deactivated a = true ↔
      (s.is_action_active a = true ∧
        ¬ (s.update dt inp).is_action_active a = true ∧
        (s.get_bindings a).isSome = true)) := by
  simp only [InputManager.is_action_just_activated,
    InputManager.is_action_just_deactivated, InputManager.is_action_active,
    InputManager.get_bindings, decide_eq_true_eq]
  constructor
  · rw [update_ja_mem, update_active_mem]
    constructor
    · rintro ⟨hna, hact⟩
      exact ⟨hact, hna⟩
    · rintro ⟨hact, hna⟩
      exact ⟨hna, hact⟩
  · rw [update_jd_mem, update_active_mem]
    constructor
    · rintro ⟨hin, p, hp, hpa, hps⟩
      refine ⟨hin, ?_, ?_⟩
      · rintro ⟨q, hq, hqa, hqs⟩
        have : q = p := nodup_key_inj s.bindings hw q p hq hp (hqa.trans hpa.symm)
        rw [this] at hqs
        rw [hqs] at hps
        cases hps
      · have := mapFind_eq_of_mem_nodup s.bindings p hw hp
        rw [hpa] at this
        rw [this]
        rfl
    · rintro ⟨hin, hna, hsome⟩
      cases hfind : mapFind s.bindings a with
      | none => rw [hfind] at hsome; cases hsome
      | some bs =>
        have hmem := mapFind_some_mem s.bindings a bs hfind
        refine ⟨hin, (a, bs), hmem, rfl, ?_⟩
        cases hval : bs.any (binding_satisfied inp) with
        | false => rfl
        | true => exact absurd ⟨(a, bs), hmem, rfl, hval⟩ hna

/-- C1 witness for the amended theorem, at the default manager with the
space key pressed. -/
theorem c1_edge_detection_witness :
    (InputManager.new.bindings.map Prod.fst).Nodup ∧
    (((InputManager.new.update 0.016 inpSpace).is_action_just_activated
        Action.Jump = true ↔
      ((InputManager.new.update 0.016 inpSpace).is_action_active
          Action.Jump = true ∧
        ¬ InputManager.new.is_action_active Action.Jump = true)) ∧
    ((InputManager.new.update 0.016 inpSpace).is_action_just_deactivated
        Action.Jump = true ↔
      (InputManager.new.is_action_active Action.Jump = true ∧
        ¬ (InputManager.new.update 0.016 inpSpace).is_action_active
            Action.Jump = true ∧
        (InputManager.new.get_bindings Action.Jump).isSome = true))) :=
  ⟨by decide,
    c1_edge_detection InputManager.new 0.016 inpSpace Action.Jump (by decide)⟩

/-- C3: for every action present in the binding table, after an update the
action is active iff at least one of its stored bindings is satisfied by the
frame's raw snapshot, where a key binding is satisfied iff its primary key
and all of its listed modifiers are down, and a mouse binding iff its
button is down (binding_satisfied). -/
theorem c3_binding_resolution (s : InputManager) (dt : ℚ) (inp : RawInput)
    (a : Action) (bs : List InputBinding)
    (hw : (s.bindings.map Prod.fst).Nodup)
    (hmem : (a, bs) ∈ s.bindings) :
    (s.update dt inp).is_action_active a = bs.any (binding_satisfied inp) := by
  unfold InputManager.is_action_active
  cases hval : bs.any (binding_satisfied inp) with
  | true =>
    simp only [decide_eq_true_eq]
    rw [update_active_mem]
    exact ⟨(a, bs), hmem, rfl, hval⟩
  | false =>
    simp only [decide_eq_false_iff_not]
    rw [update_active_mem]
    rintro ⟨q, hq, hqa, hqs⟩
    have : q = (a, bs) := nodup_key_inj s.bindings hw q (a, bs) hq hmem hqa
    rw [this] at hqs
    rw [hqs] at hval
    cases hval

/-- A manager whose Custom "mod" action is bound to A with the LeftShift
modifier, used to exercise the modifier-conjunction part of C3. -/
def modMgr : InputManager :=
  InputManager.new.bind_action (Action.Custom "mod")
    [InputBinding.key_with_modifier KeyCode.A KeyCode.LeftShift]

/-- A raw snapshot with only the A key down (modifier released). -/
def inpAOnly : RawInput :=
  { inpNone with key_down := fun k => decide (k = KeyCode.A) }

/-- A raw snapshot with the A key and LeftShift both down. -/
def inpAShift : RawInput :=
  { inpNone with
    key_down := fun k =>
      decide (k = KeyCode.A) || decide (k = KeyCode.LeftShift) }

/-- C3 witness: with A+LeftShift held the modifier-qualified action is
active; releasing the modifier while still holding A deactivates it on the
next update. -/
theorem c3_binding_resolution_witness :
    (modMgr.bindings.map Prod.fst).Nodup ∧
    (Action.Custom "mod",
      [InputBinding.key_with_modifier KeyCode.A KeyCode.LeftShift]) ∈
        modMgr.bindings ∧
    (modMgr.update 0.016 inpAShift).is_action_active (Action.Custom "mod") =
      [InputBinding.key_with_modifier KeyCode.A KeyCode.LeftShift].any
        (binding_satisfied inpAShift) ∧
    ((modMgr.update 0.016 inpAShift).update 0.016 inpAOnly).is_action_active
        (Action.Custom "mod") =
      [InputBinding.key_with_modifier KeyCode.A KeyCode.LeftShift].any
        (binding_satisfied inpAOnly) ∧
    [InputBinding.key_with_modifier KeyCode.A KeyCode.LeftShift].any
        (binding_satisfied inpAShift) = true ∧
    [InputBinding.key_with_modifier KeyCode.A KeyCode.LeftShift].any
        (binding_satisfied inpAOnly) = false :=
  ⟨by decide, by decide,
    c3_binding_resolution modMgr 0.016 inpAShift (Action.Custom "mod") _
      (by decide) (by decide),
    c3_binding_resolution (modMgr.update 0.016 inpAShift) 0.016 inpAOnly
      (Action.Custom "mod") _ (by decide) (by decide),
    by decide, by decide⟩

theorem runOps_unbound_inactive (ops : List Op) :
    ∀ (s : InputManager) (a : Action),
      a ∉ s.actions_active → a ∉ s.actions_just_activated →
      (∀ n, n ≤ ops.length →
        ∀ p ∈ (runOps s (ops.take n)).bindings, p.1 = a → p.2 = []) →
      a ∉ (runOps s ops).actions_active ∧
        a ∉ (runOps s ops).actions_just_activated := by
  induction ops with
  | nil => exact fun s a h1 h2 _ => ⟨h1, h2⟩
  | cons op rest ih =>
    intro s a h1 h2 hP
    have hP0 : ∀ p ∈ s.bindings, p.1 = a → p.2 = [] := by
      have h := hP 0 (Nat.zero_le _)
      rw [List.take_zero] at h
      exact h
    have hstep : a ∉ (applyOp s op).actions_active ∧
        a ∉ (applyOp s op).actions_just_activated := by
      cases op with
      | update inp dt =>
        constructor
        · intro hmem
          have hmem' : a ∈ (s.update dt inp).actions_active := hmem
          rw [update_active_mem] at hmem'
          rcases hmem' with ⟨p, hp, hpa, hps⟩
          rw [hP0 p hp hpa] at hps
          cases hps
        · intro hmem
          have hmem' : a ∈ (s.update dt inp).actions_just_activated := hmem
          rw [update_ja_mem] at hmem'
          rcases hmem' with ⟨-, p, hp, hpa, hps⟩
          rw [hP0 p hp hpa] at hps
          cases hps
      | bind_action a' bs =>
        unfold applyOp InputManager.bind_action
        exact ⟨h1, h2⟩
      | add_binding a' b =>
        unfold applyOp InputManager.add_binding
        by_cases hc :
            s.bindings.any (fun p => decide (p.1 = a')) = true <;>
          simp only [hc, Bool.false_eq_true, if_true, if_false] <;>
          exact ⟨h1, h2⟩
      | unbind_action a' =>
        unfold applyOp InputManager.unbind_action
        exact ⟨h1, h2⟩
      | clear_bindings =>
        unfold applyOp InputManager.clear_bindings
        exact ⟨h1, h2⟩
      | set_buffer_time t =>
        unfold applyOp InputManager.set_buffer_time
        exact ⟨h1, h2⟩
      | consume_buffered_action a' =>
        unfold applyOp InputManager.consume_buffered_action
        exact ⟨h1, h2⟩
    refine ih (applyOp s op) a hstep.1 hstep.2 ?_
    intro n hn p hp hpa
    have h3 := hP (n + 1) (by rw [List.length_cons]; omega)
    rw [List.take_succ_cons] at h3
    exact h3 p hp hpa

/-- C4: an action whose binding-table entry is absent or empty at every
point of a run starting from the freshly constructed manager is never
active and never just-activated, whatever updates and other API mutations
the run performs. -/
theorem c4_zero_bindings_never_active (a : Action) (ops : List Op)
    (hP : ∀ n, n ≤ ops.length →
      ∀ p ∈ (runOps InputManager.new (ops.take n)).bindings,
        p.1 = a → p.2 = []) :
    (runOps InputManager.new ops).is_action_active a = false ∧
    (runOps InputManager.new ops).is_action_just_activated a = false := by
  have hnew1 : a ∉ InputManager.new.actions_active := by
    intro h
    cases h
  have hnew2 : a ∉ InputManager.new.actions_just_activated := by
    intro h
    cases h
  have h := runOps_unbound_inactive ops InputManager.new a hnew1 hnew2 hP
  constructor
  · simp [InputManager.is_action_active, h.1]
  · simp [InputManager.is_action_just_activated, h.2]

/-- C4 witness: the unbound Custom "x" action stays inactive over an update
with the space key held. -/
theorem c4_zero_bindings_never_active_witness :
    (∀ n, n ≤ ([Op.update inpSpace 0.016] : List Op).length →
      ∀ p ∈ (runOps InputManager.new
          (([Op.update inpSpace 0.016] : List Op).take n)).bindings,
        p.1 = Action.Custom "x" → p.2 = []) ∧
    ((runOps InputManager.new [Op.update inpSpace 0.016]).is_action_active
        (Action.Custom "x") = false ∧
      (runOps InputManager.new
          [Op.update inpSpace 0.016]).is_action_just_activated
        (Action.Custom "x") = false) :=
  ⟨by decide,
    c4_zero_bindings_never_active (Action.Custom "x")
      [Op.update inpSpace 0.016] (by decide)⟩

theorem dtSum_cons (u : RawInput × ℚ) (us : List (RawInput × ℚ)) :
    dtSum (u :: us) = u.2 + dtSum us := by
  unfold dtSum
  rw [List.map_cons, List.sum_cons]

theorem dtSum_nonneg (us : List (RawInput × ℚ)) (h : ∀ u ∈ us, 0 ≤ u.2) :
    0 ≤ dtSum us := by
  induction us with
  | nil => exact le_refl 0
  | cons u rest ih =>
    rw [dtSum_cons]
    have h1 := h u (List.mem_cons_self u rest)
    have h2 := ih (fun v hv => h v (List.mem_cons_of_mem u hv))
    linarith

theorem runUpdates_buffer_none (us : List (RawInput × ℚ)) :
    ∀ (s : InputManager) (a : Action),
      (s.buffered_actions.map Prod.fst).Nodup →
      mapFind s.buffered_actions a = none →
      (∀ n, n < us.length →
        a ∉ (runUpdates s (us.take (n + 1))).actions_just_activated) →
      mapFind (runUpdates s us).buffered_actions a = none := by
  induction us with
  | nil =>
    intro s a _ h _
    exact h
  | cons u rest ih =>
    intro s a hw hnone hna
    have hja : a ∉ (s.update u.2 u.1).actions_just_activated := by
      have h := hna 0 (by rw [List.length_cons]; omega)
      rw [List.take_succ_cons, List.take_zero] at h
      exact h
    rw [update_ja_mem] at hja
    have h1 : mapFind (s.update u.2 u.1).buffered_actions a = none := by
      rw [update_buffered_find s u.2 u.1 a hw, if_neg hja, hnone]
    exact ih (s.update u.2 u.1) a (update_buffered_nodup s u.2 u.1 hw) h1
      (fun n hn => by
        have h := hna (n + 1) (by rw [List.length_cons]; omega)
        rw [List.take_succ_cons] at h
        exact h)

theorem runUpdates_buffer_decay (us : List (RawInput × ℚ)) :
    ∀ (s : InputManager) (a : Action) (r : ℚ),
      (s.buffered_actions.map Prod.fst).Nodup →
      mapFind s.buffered_actions a = some r → 0 < r →
      (∀ u ∈ us, 0 ≤ u.2) →
      (∀ n, n < us.length →
        a ∉ (runUpdates s (us.take (n + 1))).actions_just_activated) →
      (runUpdates s us).is_action_buffered a = decide (dtSum us < r) := by
  induction us with
  | nil =>
    intro s a r _ hfind hpos _ _
    show (mapFind s.buffered_actions a).isSome = decide (dtSum [] < r)
    rw [hfind]
    have h : dtSum [] < r := hpos
    simp [h]
  | cons u rest ih =>
    intro s a r hw hfind hpos hdts hna
    have hja : a ∉ (s.update u.2 u.1).actions_just_activated := by
      have h := hna 0 (by rw [List.length_cons]; omega)
      rw [List.take_succ_cons, List.take_zero] at h
      exact h
    rw [update_ja_mem] at hja
    have hfind1 : mapFind (s.update u.2 u.1).buffered_actions a =
        if 0 < r - u.2 then some (r - u.2) else none := by
      rw [update_buffered_find s u.2 u.1 a hw, if_neg hja, hfind]
    have hw1 := update_buffered_nodup s u.2 u.1 hw
    have hshift : ∀ n, n < rest.length →
        a ∉ (runUpdates (s.update u.2 u.1)
          (rest.take (n + 1))).actions_just_activated := by
      intro n hn
      have h := hna (n + 1) (by rw [List.length_cons]; omega)
      rw [List.take_succ_cons] at h
      exact h
    have hdts' : ∀ v ∈ rest, 0 ≤ v.2 :=
      fun v hv => hdts v (List.mem_cons_of_mem u hv)
    by_cases hr : 0 < r - u.2
    · rw [if_pos hr] at hfind1
      have h := ih (s.update u.2 u.1) a (r - u.2) hw1 hfind1 hr hdts' hshift
      show (runUpdates (s.update u.2 u.1) rest).is_action_buffered a = _
      rw [h, dtSum_cons]
      exact decide_eq_decide.mpr (by constructor <;> intro <;> linarith)
    · rw [if_neg hr] at hfind1
      have hnone := runUpdates_buffer_none rest (s.update u.2 u.1) a hw1
        hfind1 hshift
      show (runUpdates (s.update u.2 u.1) rest).is_action_buffered a = _
      unfold InputManager.is_action_buffered
      rw [hnone, dtSum_cons]
      have h0 : 0 ≤ dtSum rest := dtSum_nonneg rest hdts'
      have hlt : ¬(u.2 + dtSum rest < r) := by
        push_neg at hr ⊢
        linarith
      simp [hlt]

/-- C7: an action buffered with remaining = buffer_time = T that is never
re-activated (and never consumed) along a run of updates with non-negative
dt values stays buffered exactly while the accumulated elapsed time is
strictly below T, and is no longer buffered once it reaches T. -/
theorem c7_buffer_monotonic (s : InputManager) (a : Action) (T : ℚ)
    (us : List (RawInput × ℚ))
    (hw : (s.buffered_actions.map Prod.fst).Nodup)
    (hfind : mapFind s.buffered_actions a = some T)
    (_hbt : s.buffer_time = T) (hpos : 0 < T)
    (hdts : ∀ u ∈ us, 0 ≤ u.2)
    (hna : ∀ n, n < us.length →
      a ∉ (runUpdates s (us.take (n + 1))).actions_just_activated) :
    (runUpdates s us).is_action_buffered a = decide (dtSum us < T) :=
  runUpdates_buffer_decay us s a T hw hfind hpos hdts hna

/-- C7 witness: Jump buffered at the full 0.1 after an update with dt = 0,
then two held-key updates totalling 0.09 < 0.1 keep it buffered. -/
theorem c7_buffer_monotonic_witness :
    (((InputManager.new.update 0 inpSpace).buffered_actions.map
        Prod.fst).Nodup ∧
      mapFind (InputManager.new.update 0 inpSpace).buffered_actions
        Action.Jump = some 0.1 ∧
      (InputManager.new.update 0 inpSpace).buffer_time = 0.1 ∧
      (0 : ℚ) < 0.1 ∧
      (∀ u ∈ ([(inpSpace, 0.05), (inpSpace, 0.04)] :
          List (RawInput × ℚ)), 0 ≤ u.2) ∧
      (∀ n, n < ([(inpSpace, 0.05), (inpSpace, 0.04)] :
            List (RawInput × ℚ)).length →
        Action.Jump ∉ (runUpdates (InputManager.new.update 0 inpSpace)
          (([(inpSpace, 0.05), (inpSpace, 0.04)] :
            List (RawInput × ℚ)).take (n + 1))).actions_just_activated)) ∧
    (runUpdates (InputManager.new.update 0 inpSpace)
        [(inpSpace, 0.05), (inpSpace, 0.04)]).is_action_buffered
      Action.Jump =
      decide (dtSum [(inpSpace, 0.05), (inpSpace, 0.04)] < (0.1 : ℚ)) :=
  ⟨⟨by with_unfolding_all decide, by with_unfolding_all decide,
    by with_unfolding_all decide, by with_unfolding_all decide,
    by with_unfolding_all decide, by with_unfolding_all decide⟩,
    c7_buffer_monotonic (InputManager.new.update 0 inpSpace) Action.Jump 0.1
      [(inpSpace, 0.05), (inpSpace, 0.04)]
      (by with_unfolding_all decide) (by with_unfolding_all decide)
      (by with_unfolding_all decide) (by with_unfolding_all decide)
      (by with_unfolding_all decide) (by with_unfolding_all decide)⟩

theorem jumpFrame_invariant (k : Nat) :
    (jumpFrame k).bindings = InputManager.new.bindings ∧
    ((jumpFrame k).buffered_actions.map Prod.fst).Nodup ∧
    Action.Jump ∈ (jumpFrame k).actions_active ∧
    (Action.Jump ∈ (jumpFrame k).actions_just_activated ↔ k = 0) ∧
    mapFind (jumpFrame k).buffered_actions Action.Jump =
      if k ≤ 5 then some ((0.1 : ℚ) - ((k : ℚ) + 1) * 0.016) else none := by
  induction k with
  | zero =>
    refine ⟨rfl, ?_, ?_, ?_, ?_⟩
    · with_unfolding_all decide
    · decide
    · exact ⟨fun _ => rfl, fun _ => by decide⟩
    · rw [if_pos (by omega)]
      with_unfolding_all decide
  | succ k ih =>
    obtain ⟨hB, hN, hA, _hJA, hF⟩ := ih
    have hstep : jumpFrame (k + 1) = (jumpFrame k).update 0.016 inpSpace :=
      rfl
    have hBmem : (Action.Jump, [InputBinding.key KeyCode.Space]) ∈
        (jumpFrame k).bindings := by
      rw [hB]
      decide
    have hsat : [InputBinding.key KeyCode.Space].any
        (binding_satisfied inpSpace) = true := by decide
    have hA1 : Action.Jump ∈ (jumpFrame (k + 1)).actions_active := by
      rw [hstep, update_active_mem]
      exact ⟨(Action.Jump, [InputBinding.key KeyCode.Space]), hBmem, rfl, hsat⟩
    refine ⟨?_, ?_, hA1, ?_, ?_⟩
    · rw [hstep, update_bindings, hB]
    · rw [hstep]
      exact update_buffered_nodup _ _ _ hN
    · rw [hstep, update_ja_mem]
      constructor
      · rintro ⟨hna, -⟩
        exact absurd hA hna
      · intro h
        cases h
    · rw [hstep, update_buffered_find _ _ _ _ hN,
        if_neg (by rintro ⟨hna, -⟩; exact hna hA), hF]
      by_cases hk : k ≤ 5
      · rw [if_pos hk]
        show (if 0 < (0.1 : ℚ) - ((k : ℚ) + 1) * 0.016 - 0.016 then
            some ((0.1 : ℚ) - ((k : ℚ) + 1) * 0.016 - 0.016) else none) = _
        by_cases hk4 : k ≤ 4
        · have hc : (k : ℚ) ≤ 4 := by exact_mod_cast hk4
          rw [if_pos (by nlinarith), if_pos (by omega)]
          congr 1
          push_cast
          ring
        · have hk5 : k = 5 := by omega
          subst hk5
          rw [if_neg (by norm_num)]
          rw [if_neg (by omega)]
      · rw [if_neg hk]
        rw [if_neg (by omega)]

/-- C2 counterexample: in the end-to-end jump scenario (space pressed on
frame N, dt = 0.016, buffer_time = 0.1) the buffer entry is already gone on
frame N+6, because the entry decays on frame N itself and
0.1 - 7 * 0.016 < 0; the claim expects is_action_buffered to still be true
there. -/
theorem c2_counterexample :
    (jumpFrame 6).is_action_buffered Action.Jump = false := by
  with_unfolding_all decide

/-- C2 (amended): in the end-to-end jump scenario, is_action_just_activated
(Jump) is true on frame N and on no other frame, and is_action_buffered
(Jump) is true exactly on frames N through N+5 and false from frame N+6 on
(the entry is decayed by dt already on frame N, so it survives only 6
frames: 0.1 - 6 * 0.016 > 0 but 0.1 - 7 * 0.016 < 0). -/
theorem c2_jump_scenario (k : Nat) :
    (jumpFrame k).is_action_just_activated Action.Jump = decide (k = 0) ∧
    (jumpFrame k).is_action_buffered Action.Jump = decide (k ≤ 5) := by
  obtain ⟨-, -, -, hja, hF⟩ := jumpFrame_invariant k
  constructor
  · unfold InputManager.is_action_just_activated
    exact decide_eq_decide.mpr hja
  · unfold InputManager.is_action_buffered
    rw [hF]
    by_cases hk : k ≤ 5
    · rw [if_pos hk]
      simp [hk]
    · rw [if_neg hk]
      simp [hk]

theorem vlen_vnormalize (v : ℝ × ℝ) (hv : v ≠ ((0 : ℝ), (0 : ℝ))) :
    vlen (vnormalize v) = 1 := by
  have hne : ¬(v.1 = 0 ∧ v.2 = 0) := by
    rintro ⟨h1, h2⟩
    exact hv (Prod.ext h1 h2)
  have hsq : 0 < v.1 * v.1 + v.2 * v.2 := by
    rcases not_and_or.mp hne with h | h
    · have h1 : 0 < v.1 * v.1 := mul_self_pos.mpr h
      have h2 : 0 ≤ v.2 * v.2 := mul_self_nonneg v.2
      linarith
    · have h1 : 0 < v.2 * v.2 := mul_self_pos.mpr h
      have h2 : 0 ≤ v.1 * v.1 := mul_self_nonneg v.1
      linarith
  have hL : 0 < vlen v := Real.sqrt_pos.mpr hsq
  have hLL : vlen v * vlen v = v.1 * v.1 + v.2 * v.2 :=
    Real.mul_self_sqrt (le_of_lt hsq)
  have harith : v.1 / vlen v * (v.1 / vlen v) + v.2 / vlen v * (v.2 / vlen v)
      = (v.1 * v.1 + v.2 * v.2) / (vlen v * vlen v) := by
    field_simp
  show Real.sqrt (v.1 / vlen v * (v.1 / vlen v) +
    v.2 / vlen v * (v.2 / vlen v)) = 1
  rw [harith, hLL, div_self (ne_of_gt hsq)]
  exact Real.sqrt_one

/-- C8: get_movement_input adds a unit increment per active cardinal
movement action (up is -Y, down +Y, left -X, right +X), returns the exact
zero vector when no movement action is active, and normalizes the sum to
unit length whenever it is non-zero; in particular with MoveUp and
MoveRight active (and the other two inactive) the result has length 1. -/
theorem c8_movement_input (s : InputManager) :
    (s.is_action_active Action.MoveUp = false →
      s.is_action_active Action.MoveDown = false →
      s.is_action_active Action.MoveLeft = false →
      s.is_action_active Action.MoveRight = false →
      s.get_movement_input = ((0 : ℝ), (0 : ℝ))) ∧
    (s.movement_raw ≠ ((0 : ℝ), (0 : ℝ)) →
      vlen s.get_movement_input = 1) ∧
    (s.is_action_active Action.MoveUp = true →
      s.is_action_active Action.MoveRight = true →
      s.is_action_active Action.MoveDown = false →
      s.is_action_active Action.MoveLeft = false →
      vlen s.get_movement_input = 1) := by
  have hnorm : s.movement_raw ≠ ((0 : ℝ), (0 : ℝ)) →
      vlen s.get_movement_input = 1 := by
    intro hraw
    unfold InputManager.get_movement_input
    rw [if_pos hraw]
    exact vlen_vnormalize s.movement_raw hraw
  refine ⟨?_, hnorm, ?_⟩
  · intro h1 h2 h3 h4
    have hraw : s.movement_raw = ((0 : ℝ), (0 : ℝ)) := by
      unfold InputManager.movement_raw
      rw [h1, h2, h3, h4]
      norm_num
    unfold InputManager.get_movement_input
    rw [hraw, if_neg (by intro h; exact h rfl)]
  · intro h1 h4 h2 h3
    have hraw : s.movement_raw = ((1 : ℝ), (-1 : ℝ)) := by
      unfold InputManager.movement_raw
      rw [h1, h2, h3, h4]
      norm_num
    apply hnorm
    rw [hraw]
    intro h
    have := congrArg Prod.fst h
    norm_num at this

/-- A raw snapshot with the W and D keys down, activating MoveUp and
MoveRight through the default bindings. -/
def inpWD : RawInput :=
  { inpNone with
    key_down := fun k => decide (k = KeyCode.W) || decide (k = KeyCode.D) }

/-- The default manager one update after W and D are pressed. -/
def sUR : InputManager :=
  InputManager.new.update 0.016 inpWD

theorem sUR_movement_raw : sUR.movement_raw = ((1 : ℝ), (-1 : ℝ)) := by
  have h1 : sUR.is_action_active Action.MoveUp = true := by decide
  have h2 : sUR.is_action_active Action.MoveDown = false := by decide
  have h3 : sUR.is_action_active Action.MoveLeft = false := by decide
  have h4 : sUR.is_action_active Action.MoveRight = true := by decide
  unfold InputManager.movement_raw
  rw [h1, h2, h3, h4]
  norm_num

/-- C8 witness: the freshly constructed manager (no movement action active)
yields the exact zero vector, and with MoveUp and MoveRight active after
pressing W and D the movement vector has length exactly 1. -/
theorem c8_movement_input_witness :
    (InputManager.new.is_action_active Action.MoveUp = false ∧
      InputManager.new.is_action_active Action.MoveDown = false ∧
      InputManager.new.is_action_active Action.MoveLeft = false ∧
      InputManager.new.is_action_active Action.MoveRight = false ∧
      InputManager.new.get_movement_input = ((0 : ℝ), (0 : ℝ))) ∧
    (sUR.is_action_active Action.MoveUp = true ∧
      sUR.is_action_active Action.MoveRight = true ∧
      sUR.is_action_active Action.MoveDown = false ∧
      sUR.is_action_active Action.MoveLeft = false ∧
      sUR.movement_raw ≠ ((0 : ℝ), (0 : ℝ)) ∧
      vlen sUR.get_movement_input = 1) :=
  ⟨⟨by decide, by decide, by decide, by decide,
    (c8_movement_input InputManager.new).1 (by decide) (by decide)
      (by decide) (by decide)⟩,
    ⟨by decide, by decide, by decide, by decide,
      by
        rw [sUR_movement_raw]
        intro h
        have h1 := congrArg Prod.fst h
        norm_num at h1,
      (c8_movement_input sUR).2.2 (by decide) (by decide) (by decide)
        (by decide)⟩⟩

/-- C6 witness: activate Jump (dt 0.05, entry decays to 0.05 remaining),
release (dt 0), re-activate: the entry is reset to buffer_time (minus the
frame's dt), not accumulated, and waiting another 0.04 (total 0.09 < 0.1
after re-activation) still reports buffered. -/
theorem c6_buffer_reset_witness :
    ((((InputManager.new.update 0.05 inpSpace).update 0
        inpNone).buffered_actions.map Prod.fst).Nodup ∧
      mapFind ((InputManager.new.update 0.05 inpSpace).update 0
          inpNone).buffered_actions Action.Jump = some 0.05 ∧
      Action.Jump ∈ (((InputManager.new.update 0.05 inpSpace).update 0
          inpNone).update 0.05 inpSpace).actions_just_activated) ∧
    mapFind (((InputManager.new.update 0.05 inpSpace).update 0
        inpNone).update 0.05 inpSpace).buffered_actions Action.Jump =
      (if 0 < ((InputManager.new.update 0.05 inpSpace).update 0
            inpNone).buffer_time - 0.05 then
        some (((InputManager.new.update 0.05 inpSpace).update 0
            inpNone).buffer_time - 0.05)
       else none) ∧
    ((((InputManager.new.update 0.05 inpSpace).update 0 inpNone).update
        0.05 inpSpace).update 0.04 inpSpace).is_action_buffered
      Action.Jump = true :=
  ⟨⟨by with_unfolding_all decide, by with_unfolding_all decide,
    by with_unfolding_all decide⟩,
    c6_buffer_reset ((InputManager.new.update 0.05 inpSpace).update 0
        inpNone) 0.05 inpSpace Action.Jump 0.05
      (by with_unfolding_all decide) (by with_unfolding_all decide)
      (by with_unfolding_all decide),
    by with_unfolding_all decide⟩

/-- C9 witness: after set_buffer_time 0.15 on the fresh manager, the buffer
entry created by the next activation uses the new value (0.15 - dt). -/
theorem c9_set_buffer_time_effect_witness :
    ((InputManager.new.buffered_actions.map Prod.fst).Nodup ∧
      Action.Jump ∈ ((InputManager.new.set_buffer_time 0.15).update 0.016
        inpSpace).actions_just_activated) ∧
    mapFind ((InputManager.new.set_buffer_time 0.15).update 0.016
        inpSpace).buffered_actions Action.Jump =
      (if 0 < (0.15 : ℚ) - 0.016 then some ((0.15 : ℚ) - 0.016)
       else none) :=
  ⟨⟨by decide, by with_unfolding_all decide⟩,
    (c9_set_buffer_time_effect InputManager.new
        0.15).2.2.2.2.2.2.2.2.2.2.2.2.2.2.2
      inpSpace 0.016 Action.Jump (by decide)
      (by with_unfolding_all decide)⟩

end Lastor
